import Mathlib

/-!
Verification development for the client-side cart, variant-resolution and
formatting logic of the pesto-for-all storefront theme.

The JavaScript sources are shallowly embedded: every mutable DOM cell that
the embedded functions read or write (quantity displays, hidden variant-id
inputs, price text, rendered cart line items) is carried as explicit state,
network calls are represented by explicit outcome values, and the small
number of browser built-ins the theme relies on (`parseInt`,
`Intl.NumberFormat` at the locale and currency the theme uses) are modelled
as total Lean functions on an explicit JavaScript value type.
-/

/-- JavaScript values as far as the embedded validation and formatting code
can distinguish them: finite numbers (as rationals), the number `NaN`, strings,
`undefined`, `null` and booleans. -/
inductive JSVal where
  | num (q : ℚ)
  | nan
  | str (s : String)
  | undef
  | nullv
  | bool (b : Bool)
deriving DecidableEq

/-- Truncation of a rational toward zero, matching how JavaScript `parseInt`
truncates a number rendered in plain decimal notation. -/
def ratTrunc (q : ℚ) : Int :=
  Int.tdiv q.num q.den

/-- Value of a list of decimal digit characters. -/
def digitsToNat (ds : List Char) : Nat :=
  ds.foldl (fun a c => a * 10 + (c.toNat - 48)) 0

/-- Model of the built-in `parseInt` on a string argument (base 10, no `0x`
prefix, which the theme never passes): skip leading whitespace, read an
optional sign, then the maximal run of decimal digits; `none` stands for `NaN`
when no digit is found. -/
def parseIntString (s : String) : Option Int :=
  let cs := s.toList.dropWhile (fun c => c.isWhitespace)
  let signAndRest : Int × List Char :=
    match cs with
    | '-' :: rest => (-1, rest)
    | '+' :: rest => (1, rest)
    | _ => (1, cs)
  let ds := signAndRest.2.takeWhile (fun c => c.isDigit)
  if ds.isEmpty then none
  else some (signAndRest.1 * (digitsToNat ds : Int))

/-- Model of the built-in `parseInt` on an arbitrary value; `none` stands for
the `NaN` result.  A number argument is first rendered in decimal and then
parsed back, which for numbers printed in plain decimal notation amounts to
truncation toward zero; `undefined`, `null` and booleans render to strings
without leading digits and so parse to `NaN`. -/
def parseIntJS (v : JSVal) : Option Int :=
  match v with
  | .num q => some (ratTrunc q)
  | .nan => none
  | .str s => parseIntString s
  | .undef => none
  | .nullv => none
  | .bool _ => none

/-- Embedding of `Utils.Validate.quantity(quantity, min, max)` from the theme
utilities: `parseInt` the input, return `min` when the result is `NaN` or below
`min`, return `max` when above `max`, and the parsed integer otherwise.  The
call sites use the defaults `min = 1`, `max = 100` or pass bounds explicitly. -/
def Utils_Validate_quantity (quantity : JSVal) (min max : Int) : Int :=
  match parseIntJS quantity with
  | none => min
  | some num => if num < min then min else if num > max then max else num

/-- Render a natural number below 100 with exactly two digits, as the cents
part of a currency string. -/
def twoDigits (n : Nat) : String :=
  (if n < 10 then "0" else "") ++ toString n

/-- Insert thousands separators into a list of decimal digit characters. -/
def groupComma (s : List Char) : List Char :=
  s.enum.foldl
    (fun acc ic =>
      acc ++ (if ic.1 ≠ 0 ∧ (s.length - ic.1) % 3 = 0 then [','] else []) ++ [ic.2])
    []

/-- Model of the built-in
`Intl.NumberFormat(locale, style currency).format` for the locale and currency
the theme uses (`en-US`, `USD`), applied to an amount already rounded to whole
cents; `none` is the `NaN` argument, which the built-in renders as `$NaN`. -/
def intlFormatUSD (cents : Option Int) : String :=
  match cents with
  | none => "$NaN"
  | some c =>
    let a := c.natAbs
    (if c < 0 then "-" else "")
      ++ "$" ++ String.mk (groupComma (toString (a / 100)).toList)
      ++ "." ++ twoDigits (a % 100)

/-- Round a rational to the nearest integer, ties to even, the rounding mode
`Intl.NumberFormat` applies when reducing to two fraction digits. -/
def roundHalfEven (q : ℚ) : Int :=
  let f : Int := Int.fdiv q.num q.den
  let rem : Int := q.num - f * q.den
  if 2 * rem < (q.den : Int) then f
  else if (q.den : Int) < 2 * rem then f + 1
  else if f % 2 = 0 then f else f + 1

/-- Whether `typeof v` is the string `number` in JavaScript; true for finite
numbers and for `NaN`. -/
def jsTypeofNumber (v : JSVal) : Bool :=
  match v with
  | .num _ => true
  | .nan => true
  | _ => false

/-- Embedding of `Utils.Format.money(cents, currency, locale)` at the currency
and locale the theme configures (`USD`, `en-US`, the `Config.formatting`
defaults).  The source first guards `typeof cents !== 'number'` and returns
the literal `$0.00` for non-number input, then formats `cents / 100` with
`Intl.NumberFormat`; note that in JavaScript `typeof NaN` is `number`, so a
`NaN` argument passes the guard and reaches the formatter. -/
def Utils_Format_money (cents : JSVal) : String :=
  match cents with
  | .num q => intlFormatUSD (some (roundHalfEven q))
  | .nan => intlFormatUSD none
  | _ => "$0.00"

/-- Embedding of `CartManager.formatMoney` applied to an integer cent amount,
as the cart code always passes (line prices are integers). -/
def formatMoney (cents : Int) : String :=
  Utils_Format_money (.num (cents : ℚ))

/-- The configured cart-wide quantity ceiling, `Config.cart.maxQuantity`. -/
def cartMaxQuantity : Nat := 50

/-- The configured per-item quantity ceiling, `Config.cart.maxItemQuantity`. -/
def cartMaxItemQuantity : Int := 10

/-- Outcome of a `CartManager.addToCart` call up to the point where a network
request would be dispatched: either a typed error thrown before any network
call, or the `CartJS.addItem` request carrying the validated quantity. -/
inductive AddOutcome where
  | throwError (code : String)
  | networkAdd (quantity : Int)
deriving DecidableEq

/-- Embedding of `CartManager.addToCart(variantId, quantity, properties)` up
to the network boundary.  `variantId = none` stands for a falsy variant id
(the `!variantId` guard).  The quantity is validated with
`Utils.Validate.quantity(quantity, 1, Config.get(cart.maxItemQuantity, 10))`,
the prospective cart-wide total is computed from the current total, and the
call throws `CART_QUANTITY_LIMIT` before any network call when it exceeds
`Config.get(cart.maxQuantity, 50)`; otherwise `CartJS.addItem` is issued with
the validated quantity. -/
def addToCart (currentCartTotal : Nat) (variantId : Option String)
    (quantity : JSVal) : AddOutcome :=
  match variantId with
  | none => .throwError "CART_VARIANT_NOT_FOUND"
  | some _ =>
    let q := Utils_Validate_quantity quantity 1 cartMaxItemQuantity
    let newCartTotal : Int := (currentCartTotal : Int) + q
    if newCartTotal > (cartMaxQuantity : Int) then .throwError "CART_QUANTITY_LIMIT"
    else .networkAdd q

/-- Network action dispatched by one `CartManager.updateQuantity` call:
no call at all, a `CartJS.updateItem(line, newQuantity, ...)` whose error
closure captured `rollback` (the `currentQuantity` variable) and the display
cell, or the removal path (removal animation plus `removeItem`, which issues
`CartJS.removeItem` when the item key maps to a line number). -/
inductive QtyNetAction where
  | noCall
  | updateItem (lineNumber : Nat) (newQuantity : Nat) (rollback : Nat)
  | removeItem (lineNumber : Option Nat)
deriving DecidableEq

/-- Embedding of `CartManager.updateQuantity(itemKey, change)` for a rendered
item whose quantity display currently shows `display`.  Returns the displayed
quantity once the call returns, together with the network action it
dispatched.  Faithful to the source: `currentQuantity` is read from the
display, `newQuantity = Math.max(0, currentQuantity + change)`, the cart-wide
ceiling of 50 is checked only when `change > 0` (against
`getCurrentCartTotal() + change`) and rejects before touching the display,
the display is then updated optimistically, a zero result takes the removal
path instead of an update, and otherwise `CartJS.updateItem` is issued when
the item key resolves to a 1-based line number. -/
def updateQuantity (currentCartTotal : Nat) (display : Nat) (change : Int)
    (lineNumber : Option Nat) : Nat × QtyNetAction :=
  let currentQuantity := display
  let newQuantity : Nat := (max 0 ((currentQuantity : Int) + change)).toNat
  if change > 0 ∧ ((currentCartTotal : Int) + change > 50) then
    (display, .noCall)
  else if newQuantity = 0 then
    (newQuantity, .removeItem lineNumber)
  else
    match lineNumber with
    | some line => (newQuantity, .updateItem line newQuantity currentQuantity)
    | none => (newQuantity, .noCall)

/-- Effect on the quantity display of the error closure of a failed
`CartJS.updateItem` call: the display is reverted to the `currentQuantity`
value the closure captured. -/
def updateItemFailureRevert (rollback : Nat) : Nat :=
  rollback

/-- One user quantity edit together with the environment it runs in: the
authoritative cart total it reads, the line number its item key resolves to,
and whether the network update (if one is issued) fails. -/
structure QtyEvent where
  cartTotal : Nat
  change : Int
  lineNumber : Option Nat
  fails : Bool
deriving DecidableEq

/-- Displayed quantity after one fully processed edit: the synchronous
`updateQuantity` call followed, when an update was issued and the network
reports failure, by the error closure reverting the display. -/
def qtyStep (display : Nat) (e : QtyEvent) : Nat :=
  let r := updateQuantity e.cartTotal display e.change e.lineNumber
  match r.2, e.fails with
  | .updateItem _ _ rollback, true => updateItemFailureRevert rollback
  | _, _ => r.1

/-- Displayed quantity after a sequence of fully processed edits. -/
def runQtySeq (display : Nat) (events : List QtyEvent) : Nat :=
  events.foldl qtyStep display

/-- An in-flight `CartJS.updateItem` call for one item, as retained by the
closures `updateQuantity` created for it: the line number and quantity sent,
and the captured `currentQuantity` the error closure would restore. -/
structure PendingCall where
  lineNumber : Nat
  newQuantity : Nat
  rollback : Nat
deriving DecidableEq

/-- Event-loop state for one cart item: its displayed quantity and the
in-flight `CartJS.updateItem` calls that have been dispatched for it and have
not yet resolved. -/
structure ItemUIState where
  display : Nat
  inflight : List PendingCall
deriving DecidableEq

/-- A user quantity edit running synchronously on the event loop while other
calls for the same item may still be in flight: `updateQuantity` runs against
the current display and appends the network call it dispatches, if any, to
the in-flight list.  Nothing in the source consults or cancels the calls
already in flight. -/
def editStep (s : ItemUIState) (cartTotal : Nat) (change : Int)
    (lineNumber : Option Nat) : ItemUIState :=
  let r := updateQuantity cartTotal s.display change lineNumber
  { display := r.1
    inflight := s.inflight ++
      match r.2 with
      | .updateItem line q rollback => [⟨line, q, rollback⟩]
      | _ => [] }

/-- Resolution of the in-flight call at index `i` with a network failure: its
error closure runs, reverting the display to the quantity it captured,
unconditionally — the source keeps no pending-edit token to compare against. -/
def failStep (s : ItemUIState) (i : Nat) : ItemUIState :=
  match s.inflight.get? i with
  | some c => { display := updateItemFailureRevert c.rollback,
                inflight := s.inflight.eraseIdx i }
  | none => s

/-- One variant record of the embedded `product-variants-json` data source:
an id, a price in cents, an availability flag, and the option values
`option1, option2, option3, ...` in positional order; a position the record
does not carry (JavaScript `undefined`) is read through `getD` below. -/
structure Variant where
  id : Nat
  price : Int
  available : Bool
  options : List String
deriving DecidableEq

/-- The value `variant[optionN]` for 0-based position `i`: `none` stands for
`undefined` when the record has no such option. -/
def variantOption (v : Variant) (i : Nat) : Option String :=
  v.options.get? i

/-- Test from `updateVariantFromPills`: the variant agrees with the selected
option values on every key of `selectedOptions`, that is on every declared
option position (strict equality, so an `undefined` variant option never
matches). -/
def matchesSelection (v : Variant) (selection : List String) : Bool :=
  (List.range selection.length).all
    (fun i => variantOption v i == selection.get? i)

/-- The variant lookup of `updateVariantFromPills` (and of the select-based
`updateVariantId`): `variantData.variants.find(...)` with the all-options
equality predicate, returning the first — under unique option tuples, the
only — exact match, or `none`. -/
def findMatchingVariant (selection : List String) (variants : List Variant) :
    Option Variant :=
  variants.find? (fun v => matchesSelection v selection)

/-- The pieces of DOM state `updateVariantFromPills` may write: the hidden
variant-id input, the add-to-cart button (label, disabled flag, dataset
variant id and price) and the main price display text. -/
structure PillsFormState where
  variantIdValue : String
  buttonLabel : String
  buttonDisabled : Bool
  buttonVariantId : String
  buttonPrice : Int
  buttonPriceText : String
  priceDisplay : String
deriving DecidableEq

/-- Embedding of `updateVariantFromPills` from the point where the embedded
variant data source has been read: `parsed = none` stands for a malformed
source, where `JSON.parse` throws and the surrounding `try`/`catch` swallows
the exception after logging, leaving every piece of state untouched.  With a
parsed source the first exact match is resolved; when no variant matches the
`if (matchingVariant)` guard skips every write.  On a match the hidden input,
button and — when the price is truthy — the price display are updated; the
button price text shows `price * quantity`. -/
def updateVariantFromPills (parsed : Option (List Variant))
    (selection : List String) (quantityInput : Nat)
    (st : PillsFormState) : PillsFormState :=
  match parsed with
  | none => st
  | some variants =>
    match findMatchingVariant selection variants with
    | none => st
    | some v =>
      let st1 := { st with variantIdValue := toString v.id }
      let st2 :=
        if v.available then
          { st1 with
              buttonLabel := "Add to Cart"
              buttonDisabled := false
              buttonVariantId := toString v.id
              buttonPrice := v.price
              buttonPriceText := formatMoney (v.price * (quantityInput : Int)) }
        else
          { st1 with buttonLabel := "Sold Out", buttonDisabled := true }
      if v.price ≠ 0 then
        { st2 with priceDisplay := formatMoney v.price }
      else st2

/-- The cart error codes `CartError.isRecoverable` classifies as
non-recoverable. -/
def nonRecoverableCodes : List String :=
  ["CART_ITEM_UNAVAILABLE", "CART_VARIANT_NOT_FOUND"]

/-- Embedding of `CartError.isRecoverable()`: recoverable unless the code is
in the non-recoverable list. -/
def CartError_isRecoverable (code : String) : Bool :=
  !(nonRecoverableCodes.contains code)

/-- One line item of the authoritative cart snapshot, with the fields the
renderer reads.  Optional string fields stand for possibly undefined
JavaScript properties; `final_line_price` is optional because the fallback
`final_price * quantity` is taken when the property is undefined (or zero,
since `||` treats zero as falsy). -/
structure CartItemData where
  key : String
  quantity : Nat
  final_line_price : Option Int
  final_price : Int
  variant_title : Option String
  variant_obj_title : Option String
  product_title : Option String
  title : String
  image : String
deriving DecidableEq

/-- Truthiness of a possibly-undefined JavaScript string: false for
`undefined` and for the empty string. -/
def strTruthy (s : Option String) : Bool :=
  match s with
  | none => false
  | some t => t ≠ ""

/-- The JavaScript `a || b` on possibly-undefined strings. -/
def jsOrStr (a b : Option String) : Option String :=
  if strTruthy a then a else b

/-- The title the renderer displays for a line item:
`item.variant_title || item.variant?.title` unless that is falsy or the
literal `Default Title`, else `item.product_title || item.title`.  Assigning
`undefined` to `textContent` renders the string `undefined`. -/
def displayTitle (it : CartItemData) : String :=
  let variantTitle := jsOrStr it.variant_title it.variant_obj_title
  let productTitle := jsOrStr it.product_title (some it.title)
  let d := if strTruthy variantTitle && variantTitle != some "Default Title"
    then variantTitle else productTitle
  match d with
  | some s => s
  | none => "undefined"

/-- The cent amount the renderer formats for a line item:
`item.final_line_price || item.final_price * item.quantity`. -/
def linePriceNum (it : CartItemData) : Int :=
  match it.final_line_price with
  | some p => if p ≠ 0 then p else it.final_price * (it.quantity : Int)
  | none => it.final_price * (it.quantity : Int)

/-- A rendered `.cart-item` DOM element, as far as the reconciler touches it.
`nodeId` models the identity of the element object itself and `imageId` the
identity of its `img` child; both are assigned once at creation and never
reassigned, so equal ids across reconciler runs witness that the very same
DOM node survived. -/
structure DomNode where
  nodeId : Nat
  imageId : Nat
  key : String
  qtyText : Nat
  priceText : String
  titleText : String
  imageSrc : String
deriving DecidableEq

/-- Embedding of `updateExistingCartItem(itemElement, itemData)`: refresh the
quantity display, the line price text and the title text in place; the
element, its image child and the image source are deliberately left alone. -/
def updateExistingCartItem (n : DomNode) (it : CartItemData) : DomNode :=
  { n with
      qtyText := it.quantity
      priceText := formatMoney (linePriceNum it)
      titleText := displayTitle it }

/-- Embedding of `createCartItemElement(item)`: a brand-new element (fresh
element and image identities, drawn from a counter threaded through the
reconciler) rendering the item data. -/
def createCartItemElement (fresh : Nat) (it : CartItemData) : DomNode :=
  { nodeId := fresh
    imageId := fresh + 1
    key := it.key
    qtyText := it.quantity
    priceText := formatMoney (linePriceNum it)
    titleText := displayTitle it
    imageSrc := it.image }

/-- Mutation of the first element matching a key where it stands, the effect
of updating the element `querySelector` returns. -/
def updateFirst (key : String) (f : DomNode → DomNode) :
    List DomNode → List DomNode
  | [] => []
  | n :: rest =>
    if n.key = key then f n :: rest else n :: updateFirst key f rest

/-- The add-or-update phase of `updateCartItemsIntelligently`: for each
incoming item in order, update the already rendered element for its key if
one exists, otherwise append a freshly created element; the second component
threads the fresh-identity counter (each creation consumes two identities,
one for the element and one for its image). -/
def addOrUpdatePhase (newItems : List CartItemData)
    (init : List DomNode × Nat) : List DomNode × Nat :=
  newItems.foldl
    (fun st it =>
      match st.1.find? (fun n => n.key == it.key) with
      | some _ => (updateFirst it.key (fun n => updateExistingCartItem n it) st.1, st.2)
      | none => (st.1 ++ [createCartItemElement st.2 it], st.2 + 2))
    init

/-- Embedding of `reorderCartItems(newItems)`: collect, per incoming item in
order, the rendered element for its key (skipping items with none); then
remove every rendered element and re-append the collected ones in order.
Appending an element that is already in the container moves it, which the
fold models by dropping any earlier occurrence of the same element identity. -/
def reorderCartItems (dom : List DomNode) (newItems : List CartItemData) :
    List DomNode :=
  let ordered := newItems.foldl
    (fun acc it =>
      match dom.find? (fun n => n.key == it.key) with
      | some n => acc ++ [n]
      | none => acc)
    []
  ordered.foldl (fun acc n => acc.filter (fun m => m.nodeId ≠ n.nodeId) ++ [n]) []

/-- Embedding of `updateCartItemsIntelligently(newItems)`, the reconcile sync
point for a non-empty snapshot: remove rendered elements whose key left the
snapshot, update or create an element per incoming item, then reorder to the
snapshot order.  Takes and returns the fresh-identity counter for created
elements. -/
def updateCartItemsIntelligently (dom : List DomNode)
    (newItems : List CartItemData) (fresh : Nat) : List DomNode × Nat :=
  let newKeys := newItems.map (fun it => it.key)
  let dom1 := dom.filter (fun n => newKeys.contains n.key)
  let r := addOrUpdatePhase newItems (dom1, fresh)
  (reorderCartItems r.1 newItems, r.2)

/-- Reference shape of the reconciled list: one element per incoming item in
snapshot order, each either the updated pre-existing element for its key or a
freshly created one, with the fresh counter threaded left to right.  Proved
below to coincide with `updateCartItemsIntelligently` whenever the snapshot
keys are distinct and the rendered element identities are sound. -/
def canonicalBuild (dom : List DomNode) :
    List CartItemData → Nat → List DomNode × Nat
  | [], f => ([], f)
  | it :: rest, f =>
    match dom.find? (fun n => n.key == it.key) with
    | some n =>
      let r := canonicalBuild dom rest f
      (updateExistingCartItem n it :: r.1, r.2)
    | none =>
      let r := canonicalBuild dom rest (f + 2)
      (createCartItemElement f it :: r.1, r.2)

/-- A sample rendered cart: one line item with key `a`, element identity 0
and image identity 1. -/
def sampleDom : List DomNode :=
  [⟨0, 1, "a", 9, "$9.00", "Old", "imgA"⟩]

/-- A sample authoritative snapshot: a new item with key `b` followed by the
already rendered key `a`. -/
def sampleItems : List CartItemData :=
  [⟨"b", 1, none, 300, none, none, none, "B", "imgB"⟩,
   ⟨"a", 2, some 400, 200, none, none, none, "A", "imgA2"⟩]

/-! Theorems.  Claim theorems are stated over the embedded definitions above;
helper lemmas shared between proofs come first. -/

/-- C9: a cart error is non-recoverable exactly for the two codes naming a
permanently unavailable item or an absent variant; `isRecoverable()` returns
false for `CART_ITEM_UNAVAILABLE` and `CART_VARIANT_NOT_FOUND` and true for
every other cart error code. -/
theorem cartError_isRecoverable_iff (code : String) :
    CartError_isRecoverable code = false ↔
      code = "CART_ITEM_UNAVAILABLE" ∨ code = "CART_VARIANT_NOT_FOUND" := by
  simp [CartError_isRecoverable, nonRecoverableCodes]
  tauto

/-- C6 counterexample: on the `NaN` argument the money formatter does not
return the zero-value currency string; `typeof NaN` is `number` in
JavaScript, so `NaN` passes the non-number guard and `Intl.NumberFormat`
renders it as `$NaN`. -/
theorem money_nan_not_zero : ¬ Utils_Format_money .nan = "$0.00" := by decide

/-- C6 amended: `format(0)` is `$0.00` and `format(2500)` is `$25.00` for the
configured `USD`/`en-US`; every input whose `typeof` is not `number`
(strings, `undefined`, `null`, booleans) yields `$0.00` without throwing; the
`NaN` input, whose `typeof` is `number`, also does not throw but yields
`$NaN` rather than the zero-value string. -/
theorem money_spec :
    Utils_Format_money (.num 0) = "$0.00"
    ∧ Utils_Format_money (.num 2500) = "$25.00"
    ∧ (∀ v : JSVal, jsTypeofNumber v = false → Utils_Format_money v = "$0.00")
    ∧ Utils_Format_money .nan = "$NaN" := by
  refine ⟨by decide, by decide, ?_, by decide⟩
  intro v hv
  cases v <;> simp_all [jsTypeofNumber, Utils_Format_money]

/-- C10: `Utils.Validate.quantity` is total over every JavaScript input and,
for integer bounds `min ≤ max`, always lands in `[min, max]`: it returns
`min` when the input does not parse or parses below `min`, `max` when it
parses above `max`, and the parsed integer otherwise. -/
theorem validate_quantity_spec (v : JSVal) (min max : Int) (hmm : min ≤ max) :
    (min ≤ Utils_Validate_quantity v min max
      ∧ Utils_Validate_quantity v min max ≤ max)
    ∧ (parseIntJS v = none → Utils_Validate_quantity v min max = min)
    ∧ (∀ n, parseIntJS v = some n → n < min →
        Utils_Validate_quantity v min max = min)
    ∧ (∀ n, parseIntJS v = some n → max < n →
        Utils_Validate_quantity v min max = max)
    ∧ (∀ n, parseIntJS v = some n → min ≤ n → n ≤ max →
        Utils_Validate_quantity v min max = n) := by
  refine ⟨?_, ?_, ?_, ?_, ?_⟩
  · unfold Utils_Validate_quantity
    cases parseIntJS v with
    | none => exact ⟨le_rfl, hmm⟩
    | some n =>
      simp only
      split_ifs <;> omega
  · intro hn
    unfold Utils_Validate_quantity
    rw [hn]
  · intro n hn hlt
    unfold Utils_Validate_quantity
    rw [hn]
    simp [hlt]
  · intro n hn hgt
    unfold Utils_Validate_quantity
    rw [hn]
    have h1 : ¬ n < min := by omega
    have h2 : n > max := hgt
    simp [h1, h2]
  · intro n hn hge hle
    unfold Utils_Validate_quantity
    rw [hn]
    have h1 : ¬ n < min := by omega
    have h2 : ¬ n > max := by omega
    simp [h1, h2]

/-- C10 witness: the bounds are satisfiable and the theorem evaluates on the
fractional string input `" 3.7"` with the default bounds, giving the parsed
integer 3. -/
theorem validate_quantity_spec_witness :
    Utils_Validate_quantity (.str " 3.7") 1 100 = 3 :=
  (validate_quantity_spec (.str " 3.7") 1 100 (by decide)).2.2.2.2 3
    (by decide) (by decide) (by decide)

/-- C1: with a present variant id, `addToCart` rejects with the
`CART_QUANTITY_LIMIT` error — before any network call, as the outcome type
records — exactly when the current cart total plus the validated quantity
exceeds the configured cart-wide ceiling of 50, and otherwise issues the
network add with the validated quantity. -/
theorem addToCart_ceiling (currentCartTotal : Nat) (variantId : Option String)
    (quantity : JSVal) (hv : variantId ≠ none) :
    (((currentCartTotal : Int) + Utils_Validate_quantity quantity 1 cartMaxItemQuantity
        > (cartMaxQuantity : Int)) →
      addToCart currentCartTotal variantId quantity = .throwError "CART_QUANTITY_LIMIT")
    ∧ (((currentCartTotal : Int) + Utils_Validate_quantity quantity 1 cartMaxItemQuantity
        ≤ (cartMaxQuantity : Int)) →
      addToCart currentCartTotal variantId quantity
        = .networkAdd (Utils_Validate_quantity quantity 1 cartMaxItemQuantity)) := by
  cases variantId with
  | none => exact absurd rfl hv
  | some vid =>
    constructor
    · intro hgt
      simp [addToCart, hgt]
    · intro hle
      have h1 : ¬ ((currentCartTotal : Int)
          + Utils_Validate_quantity quantity 1 cartMaxItemQuantity
          > (cartMaxQuantity : Int)) := by omega
      simp [addToCart, h1]

/-- C1 witness: at current cart total 49 an add of 2 is rejected with the
quantity-limit error and no network call, and an add of 1 is accepted and
reaches the network with quantity 1. -/
theorem addToCart_ceiling_witness :
    addToCart 49 (some "v1") (.num 2) = .throwError "CART_QUANTITY_LIMIT"
    ∧ addToCart 49 (some "v1") (.num 1) = .networkAdd 1 := by
  constructor
  · exact (addToCart_ceiling 49 (some "v1") (.num 2) (by decide)).1 (by decide)
  · exact (addToCart_ceiling 49 (some "v1") (.num 1) (by decide)).2 (by decide)

/-- C2: for a selection with one value per declared option position, the
variant lookup returns a variant exactly when an all-options exact match
exists — under unique option tuples, the unique such variant — and `none`
when no variant matches; any returned variant is a full match from the list
(never a partial or closest match), and the lookup is a total function. -/
theorem findMatchingVariant_spec (selection : List String)
    (variants : List Variant)
    (huniq : ∀ v ∈ variants, ∀ w ∈ variants,
      matchesSelection v selection = true → matchesSelection w selection = true →
        v = w) :
    (∀ v ∈ variants, matchesSelection v selection = true →
      findMatchingVariant selection variants = some v)
    ∧ ((∀ v ∈ variants, matchesSelection v selection = false) →
      findMatchingVariant selection variants = none)
    ∧ (∀ v, findMatchingVariant selection variants = some v →
      v ∈ variants ∧ matchesSelection v selection = true) := by
  refine ⟨?_, ?_, ?_⟩
  · intro v hv hmatch
    cases hfind : findMatchingVariant selection variants with
    | none =>
      have := List.find?_eq_none.mp hfind v hv
      simp [hmatch] at this
    | some w =>
      have hfind2 : variants.find? (fun v => matchesSelection v selection)
          = some w := hfind
      have hw := List.find?_some hfind2
      have hwmem : w ∈ variants := List.mem_of_find?_eq_some hfind2
      rw [huniq w hwmem v hv hw hmatch]
  · intro hall
    apply List.find?_eq_none.mpr
    intro v hv
    simp [hall v hv]
  · intro v hfind
    have hfind2 : variants.find? (fun v => matchesSelection v selection)
        = some v := hfind
    have hv := List.find?_some hfind2
    exact ⟨List.mem_of_find?_eq_some hfind2, hv⟩

/-- C2 witness: with two variants over one option position, the selection
`Large` resolves to the Large variant, and a selection matched by no variant
resolves to none. -/
theorem findMatchingVariant_spec_witness :
    findMatchingVariant ["Large"]
      [⟨1, 2000, true, ["Small"]⟩, ⟨2, 3000, true, ["Large"]⟩]
      = some ⟨2, 3000, true, ["Large"]⟩
    ∧ findMatchingVariant ["Medium"]
      [⟨1, 2000, true, ["Small"]⟩, ⟨2, 3000, true, ["Large"]⟩] = none := by
  constructor
  · exact (findMatchingVariant_spec ["Large"]
      [⟨1, 2000, true, ["Small"]⟩, ⟨2, 3000, true, ["Large"]⟩]
      (by decide)).1 ⟨2, 3000, true, ["Large"]⟩ (by decide) (by decide)
  · exact (findMatchingVariant_spec ["Medium"]
      [⟨1, 2000, true, ["Small"]⟩, ⟨2, 3000, true, ["Large"]⟩]
      (by decide)).2.1 (by decide)

/-- C8: when the embedded variant data source is malformed (`JSON.parse`
throws, `parsed = none`), `updateVariantFromPills` leaves the hidden variant
id, the button and the price display untouched — behaving exactly as when a
parsed source yields no resolvable variant — and, being a total function into
DOM state, propagates no exception. -/
theorem updateVariantFromPills_fail_closed :
    (∀ (selection : List String) (q : Nat) (st : PillsFormState),
      updateVariantFromPills none selection q st = st)
    ∧ (∀ (variants : List Variant) (selection : List String) (q : Nat)
        (st : PillsFormState),
      findMatchingVariant selection variants = none →
        updateVariantFromPills (some variants) selection q st
          = updateVariantFromPills none selection q st) := by
  constructor
  · intro selection q st
    rfl
  · intro variants selection q st hnone
    simp [updateVariantFromPills, hnone]

/-- C8 witness: a concrete malformed source leaves a concrete form state
unchanged, and coincides with a parsed source that resolves no variant. -/
theorem updateVariantFromPills_fail_closed_witness :
    updateVariantFromPills none ["Large"] 1
        ⟨"7", "Add to Cart", false, "7", 2000, "$20.00", "$20.00"⟩
      = ⟨"7", "Add to Cart", false, "7", 2000, "$20.00", "$20.00"⟩
    ∧ updateVariantFromPills (some [⟨1, 2000, true, ["Small"]⟩]) ["Large"] 1
        ⟨"7", "Add to Cart", false, "7", 2000, "$20.00", "$20.00"⟩
      = updateVariantFromPills none ["Large"] 1
        ⟨"7", "Add to Cart", false, "7", 2000, "$20.00", "$20.00"⟩ :=
  ⟨updateVariantFromPills_fail_closed.1 ["Large"] 1
      ⟨"7", "Add to Cart", false, "7", 2000, "$20.00", "$20.00"⟩,
    updateVariantFromPills_fail_closed.2 [⟨1, 2000, true, ["Small"]⟩]
      ["Large"] 1 ⟨"7", "Add to Cart", false, "7", 2000, "$20.00", "$20.00"⟩
      (by decide)⟩

/-- Helper: the rollback value captured by an issued `CartJS.updateItem` call
is exactly the quantity displayed when `updateQuantity` started. -/
theorem updateQuantity_rollback_eq_display
    {currentCartTotal display : Nat} {change : Int} {lineNumber : Option Nat}
    {line q rollback : Nat}
    (h : (updateQuantity currentCartTotal display change lineNumber).2
      = .updateItem line q rollback) :
    rollback = display := by
  unfold updateQuantity at h
  by_cases h1 : change > 0 ∧ ((currentCartTotal : Int) + change > 50)
  · simp [h1] at h
  · simp only [h1, if_false] at h
    by_cases h2 : (max 0 ((display : Int) + change)).toNat = 0
    · simp [h2] at h
    · simp only [h2, if_false, if_neg h2] at h
      cases lineNumber with
      | some line2 =>
        simp only at h
        exact (QtyNetAction.updateItem.injEq _ _ _ _ _ _).mp h |>.2.2 |>.symm
      | none => simp at h

/-- C3: in any sequence of fully processed `updateQuantity` edits on one
item, whenever the edit at position `i` issues a network update that fails,
the displayed quantity after its failure handler runs equals the displayed
quantity immediately before that call — the rollback is exact. -/
theorem updateQuantity_rollback_exact (d0 : Nat) (events : List QtyEvent)
    (i : Nat) (hi : i < events.length)
    (hfail : (events.get ⟨i, hi⟩).fails = true)
    (hupd : ∃ line q rollback,
      (updateQuantity (events.get ⟨i, hi⟩).cartTotal
        (runQtySeq d0 (events.take i)) (events.get ⟨i, hi⟩).change
        (events.get ⟨i, hi⟩).lineNumber).2 = .updateItem line q rollback) :
    runQtySeq d0 (events.take (i + 1)) = runQtySeq d0 (events.take i) := by
  obtain ⟨line, q, rollback, hupd⟩ := hupd
  have htake : events.take (i + 1) = events.take i ++ [events.get ⟨i, hi⟩] := by
    rw [List.take_succ]
    congr 1
    rw [List.getElem?_eq_getElem hi]
    rfl
  rw [htake]
  unfold runQtySeq
  rw [List.foldl_append]
  show qtyStep (runQtySeq d0 (events.take i)) (events.get ⟨i, hi⟩)
    = runQtySeq d0 (events.take i)
  simp only [qtyStep, hupd, hfail]
  exact updateQuantity_rollback_eq_display hupd

/-- C3 witness: starting from a display of 3, a single failing increment
leaves the display at 3, the value before the call. -/
theorem updateQuantity_rollback_exact_witness :
    runQtySeq 3 (([⟨10, 1, some 1, true⟩] : List QtyEvent).take (0 + 1))
      = runQtySeq 3 (([⟨10, 1, some 1, true⟩] : List QtyEvent).take 0) :=
  updateQuantity_rollback_exact 3 [⟨10, 1, some 1, true⟩] 0 (by decide)
    (by decide) ⟨1, 4, 3, by decide⟩

/-- C4: the cart-wide ceiling is re-validated only for positive deltas — with
a non-positive delta the result does not depend on the cart total, so a
decrease is never blocked, while a positive delta pushing the total past 50
is rejected without touching the display or the network; whenever the
resulting quantity is at most 0, removal semantics are applied instead of an
update; and any issued update call carries a quantity of at least 1, so no
zero-quantity line is ever persisted. -/
theorem updateQuantity_decrease_and_removal (currentCartTotal display : Nat)
    (change : Int) (lineNumber : Option Nat) :
    (change ≤ 0 → ∀ otherTotal : Nat,
      updateQuantity currentCartTotal display change lineNumber
        = updateQuantity otherTotal display change lineNumber)
    ∧ (0 < change → (currentCartTotal : Int) + change > 50 →
      updateQuantity currentCartTotal display change lineNumber
        = (display, .noCall))
    ∧ ((display : Int) + change ≤ 0 →
      updateQuantity currentCartTotal display change lineNumber
        = (0, .removeItem lineNumber))
    ∧ (∀ line q rollback,
      (updateQuantity currentCartTotal display change lineNumber).2
        = .updateItem line q rollback → 1 ≤ q) := by
  refine ⟨?_, ?_, ?_, ?_⟩
  · intro hc otherTotal
    unfold updateQuantity
    have h1 : ¬(change > 0 ∧ ((currentCartTotal : Int) + change > 50)) := by
      intro h
      omega
    have h2 : ¬(change > 0 ∧ ((otherTotal : Int) + change > 50)) := by
      intro h
      omega
    rw [if_neg h1, if_neg h2]
  · intro hc hgt
    unfold updateQuantity
    rw [if_pos ⟨hc, hgt⟩]
  · intro hle
    unfold updateQuantity
    have h1 : ¬(change > 0 ∧ ((currentCartTotal : Int) + change > 50)) := by
      intro h
      omega
    have hmax : max 0 ((display : Int) + change) = 0 := max_eq_left hle
    rw [if_neg h1, hmax]
    simp
  · intro line q rollback h
    unfold updateQuantity at h
    by_cases h1 : change > 0 ∧ ((currentCartTotal : Int) + change > 50)
    · simp [h1] at h
    · simp only [h1, if_false, if_neg h1] at h
      by_cases h2 : (max 0 ((display : Int) + change)).toNat = 0
      · simp [h2] at h
      · simp only [h2, if_neg h2] at h
        cases lineNumber with
        | some line2 =>
          simp only at h
          have hq := (QtyNetAction.updateItem.injEq _ _ _ _ _ _).mp h |>.2.1
          omega
        | none => simp at h

/-- C4 witness: a decrement at cart total 49 behaves identically at cart
total 0 (never ceiling-blocked); a decrement from quantity 1 issues a
removal, not an update; and the update issued by an increment from 3 carries
quantity 4, at least 1. -/
theorem updateQuantity_decrease_and_removal_witness :
    updateQuantity 49 3 (-1) (some 2) = updateQuantity 0 3 (-1) (some 2)
    ∧ updateQuantity 49 1 (-1) (some 2) = (0, .removeItem (some 2))
    ∧ (1 : Nat) ≤ 4 :=
  ⟨(updateQuantity_decrease_and_removal 49 3 (-1) (some 2)).1 (by decide) 0,
    (updateQuantity_decrease_and_removal 49 1 (-1) (some 2)).2.2.1 (by decide),
    (updateQuantity_decrease_and_removal 10 3 1 (some 2)).2.2.2 2 4 3 (by decide)⟩

/-- C7 counterexample: two rapid edits on the same item each dispatch their
own `CartJS.updateItem`, so two pending edits are in flight at once — the
second does not supersede or cancel the first — and when the now-stale first
call fails, its handler reverts the display to 1 unconditionally, clobbering
the later edit that had set it to 3: the source keeps no pending-edit token
to check. -/
theorem updateQuantity_race_counterexample :
    (editStep (editStep ⟨1, []⟩ 1 1 (some 1)) 2 1 (some 1)).inflight.length = 2
    ∧ (editStep (editStep ⟨1, []⟩ 1 1 (some 1)) 2 1 (some 1)).display = 3
    ∧ (failStep (editStep (editStep ⟨1, []⟩ 1 1 (some 1)) 2 1 (some 1)) 0).display
      = 1 := by decide

/-- C7 amended: edits to the same item are not serialized — an edit leaves
every already in-flight call in place (no cancellation), each edit that
reaches the network appends its own concurrent in-flight call, and a failing
call reverts the display to its own captured rollback value unconditionally,
with no staleness or token check. -/
theorem updateQuantity_edits_unserialized (s : ItemUIState) (cartTotal : Nat)
    (change : Int) (lineNumber : Option Nat) :
    ((editStep s cartTotal change lineNumber).inflight.take s.inflight.length
      = s.inflight)
    ∧ (∀ line q rollback,
      (updateQuantity cartTotal s.display change lineNumber).2
          = .updateItem line q rollback →
        (editStep s cartTotal change lineNumber).inflight
          = s.inflight ++ [⟨line, q, rollback⟩])
    ∧ (∀ i c0, s.inflight.get? i = some c0 →
      (failStep s i).display = c0.rollback) := by
  refine ⟨?_, ?_, ?_⟩
  · unfold editStep
    exact List.take_left _ _
  · intro line q rollback h
    unfold editStep
    simp [h]
  · intro i c0 h
    unfold failStep
    rw [h]
    rfl

/-- C7 amended witness: with one call already in flight, a second edit
appends a second concurrent call, and failing the first (stale) call reverts
the display to its captured value 1. -/
theorem updateQuantity_edits_unserialized_witness :
    (editStep ⟨2, [⟨1, 2, 1⟩]⟩ 2 1 (some 1)).inflight
      = [⟨1, 2, 1⟩, ⟨1, 3, 2⟩]
    ∧ (failStep ⟨2, [⟨1, 2, 1⟩]⟩ 0).display = 1 :=
  ⟨(updateQuantity_edits_unserialized ⟨2, [⟨1, 2, 1⟩]⟩ 2 1 (some 1)).2.1
      1 3 2 (by decide),
    (updateQuantity_edits_unserialized ⟨2, [⟨1, 2, 1⟩]⟩ 2 1 (some 1)).2.2
      0 ⟨1, 2, 1⟩ (by decide)⟩

/-- Updating an element in place preserves its key. -/
@[simp] theorem updateExistingCartItem_key (n : DomNode) (it : CartItemData) :
    (updateExistingCartItem n it).key = n.key := rfl

/-- Updating an element in place preserves the element identity. -/
@[simp] theorem updateExistingCartItem_nodeId (n : DomNode) (it : CartItemData) :
    (updateExistingCartItem n it).nodeId = n.nodeId := rfl

/-- Updating an element in place preserves the image element identity. -/
@[simp] theorem updateExistingCartItem_imageId (n : DomNode) (it : CartItemData) :
    (updateExistingCartItem n it).imageId = n.imageId := rfl

/-- Updating an element in place preserves the image source. -/
@[simp] theorem updateExistingCartItem_imageSrc (n : DomNode) (it : CartItemData) :
    (updateExistingCartItem n it).imageSrc = n.imageSrc := rfl

/-- A created element carries the key of its item. -/
@[simp] theorem createCartItemElement_key (f : Nat) (it : CartItemData) :
    (createCartItemElement f it).key = it.key := rfl

/-- A created element carries the fresh element identity. -/
@[simp] theorem createCartItemElement_nodeId (f : Nat) (it : CartItemData) :
    (createCartItemElement f it).nodeId = f := rfl

/-- Updating twice with the same item data equals updating once. -/
theorem updateExistingCartItem_idem (n : DomNode) (it : CartItemData) :
    updateExistingCartItem (updateExistingCartItem n it) it
      = updateExistingCartItem n it := rfl

/-- Updating a freshly created element with its own item data is a no-op. -/
theorem updateExistingCartItem_create (f : Nat) (it : CartItemData) :
    updateExistingCartItem (createCartItemElement f it) it
      = createCartItemElement f it := rfl

/-- In-place update of the first element with a key preserves the key
sequence when the update itself preserves keys. -/
theorem updateFirst_map_key (k : String) (f : DomNode → DomNode)
    (hf : ∀ n, (f n).key = n.key) (l : List DomNode) :
    (updateFirst k f l).map (fun n => n.key) = l.map (fun n => n.key) := by
  induction l with
  | nil => rfl
  | cons n rest ih =>
    unfold updateFirst
    by_cases h : n.key = k
    · simp [h, hf]
    · simp only [if_neg h, List.map_cons, ih]

/-- Looking up a key other than the updated one is unaffected by an in-place
key-preserving update of the first element with the updated key. -/
theorem find?_updateFirst_other (k k2 : String) (hne : k2 ≠ k)
    (f : DomNode → DomNode) (hf : ∀ n, (f n).key = n.key) (l : List DomNode) :
    (updateFirst k f l).find? (fun n => n.key == k2)
      = l.find? (fun n => n.key == k2) := by
  induction l with
  | nil => rfl
  | cons n rest ih =>
    unfold updateFirst
    by_cases h : n.key = k
    · rw [if_pos h]
      have h1 : ((f n).key == k2) = false := by
        rw [hf, h]
        exact beq_eq_false_iff_ne.mpr (fun hh => hne hh.symm)
      have h2 : (n.key == k2) = false := by
        rw [h]
        exact beq_eq_false_iff_ne.mpr (fun hh => hne hh.symm)
      rw [List.find?_cons_of_neg _ (by simp [h1]),
        List.find?_cons_of_neg _ (by simp [h2])]
    · rw [if_neg h]
      by_cases h2 : n.key = k2
      · rw [List.find?_cons_of_pos _ (by simp [h2]),
          List.find?_cons_of_pos _ (by simp [h2])]
      · rw [List.find?_cons_of_neg _ (by simp [h2]),
          List.find?_cons_of_neg _ (by simp [h2])]
        exact ih

/-- Looking up the updated key after an in-place key-preserving update of its
first element yields the updated element. -/
theorem find?_updateFirst_self (k : String) (f : DomNode → DomNode)
    (hf : ∀ n, (f n).key = n.key) (l : List DomNode) (n : DomNode)
    (h : l.find? (fun m => m.key == k) = some n) :
    (updateFirst k f l).find? (fun m => m.key == k) = some (f n) := by
  induction l with
  | nil => simp [List.find?] at h
  | cons m rest ih =>
    by_cases hm : m.key = k
    · rw [List.find?_cons_of_pos _ (by simp [hm])] at h
      injection h with h
      subst h
      unfold updateFirst
      rw [if_pos hm]
      rw [List.find?_cons_of_pos _ (by simp [hf, hm])]
    · rw [List.find?_cons_of_neg _ (by simp [hm])] at h
      unfold updateFirst
      rw [if_neg hm]
      rw [List.find?_cons_of_neg _ (by simp [hm])]
      exact ih h

/-- Appending one element with a different key does not change a lookup. -/
theorem find?_append_single_other (l : List DomNode) (x : DomNode) (k : String)
    (hx : x.key ≠ k) :
    (l ++ [x]).find? (fun n => n.key == k) = l.find? (fun n => n.key == k) := by
  rw [List.find?_append]
  have h1 : ([x].find? (fun n => n.key == k)) = none := by
    rw [List.find?_cons_of_neg _ (by simp [hx])]
    rfl
  rw [h1, Option.or_none]

/-- Filtering to the keys of the snapshot does not change the lookup of a
snapshot key. -/
theorem find?_filter_contains (dom : List DomNode) (keyList : List String)
    (k : String) (hmem : k ∈ keyList) :
    (dom.filter (fun n => keyList.contains n.key)).find? (fun n => n.key == k)
      = dom.find? (fun n => n.key == k) := by
  induction dom with
  | nil => rfl
  | cons n rest ih =>
    by_cases hk : n.key = k
    · have hc : (keyList.contains n.key) = true := by
        rw [hk]
        exact List.elem_eq_true_of_mem hmem
      rw [List.filter_cons_of_pos (by exact hc),
        List.find?_cons_of_pos _ (by simp [hk]),
        List.find?_cons_of_pos _ (by simp [hk])]
    · by_cases hc : keyList.contains n.key
      · rw [List.filter_cons_of_pos (by exact hc),
          List.find?_cons_of_neg _ (by simp [hk]),
          List.find?_cons_of_neg _ (by simp [hk])]
        exact ih
      · rw [List.filter_cons_of_neg (by exact hc),
          List.find?_cons_of_neg _ (by simp [hk])]
        exact ih

/-- The element-collection fold of `reorderCartItems` collects exactly the
successful lookups, in snapshot order. -/
theorem foldl_collect_eq_filterMap (dom : List DomNode)
    (items : List CartItemData) (acc : List DomNode) :
    items.foldl
      (fun acc it =>
        match dom.find? (fun n => n.key == it.key) with
        | some n => acc ++ [n]
        | none => acc) acc
      = acc ++ items.filterMap (fun it => dom.find? (fun n => n.key == it.key)) := by
  induction items generalizing acc with
  | nil => simp
  | cons it rest ih =>
    rw [List.foldl_cons, List.filterMap_cons]
    cases hfind : dom.find? (fun n => n.key == it.key) with
    | some n =>
      simp only [hfind]
      rw [ih]
      simp
    | none =>
      simp only [hfind]
      exact ih acc

/-- Re-appending a list of elements with pairwise distinct identities into an
emptied container reproduces the list: no append ever has to move an element
already placed. -/
theorem reinsert_eq_append (l acc : List DomNode)
    (h : ((acc ++ l).map (fun n => n.nodeId)).Nodup) :
    l.foldl (fun acc n => acc.filter (fun m => m.nodeId ≠ n.nodeId) ++ [n]) acc
      = acc ++ l := by
  induction l generalizing acc with
  | nil => simp
  | cons n rest ih =>
    have hdisj := List.disjoint_of_nodup_append (by rw [← List.map_append]; exact h)
    have hnotin : ∀ m ∈ acc, m.nodeId ≠ n.nodeId := by
      intro m hm heq
      exact hdisj (List.mem_map_of_mem _ hm)
        (by rw [heq]; exact List.mem_map_of_mem _ (List.mem_cons_self _ _))
    have hfilter : acc.filter (fun m => m.nodeId ≠ n.nodeId) = acc := by
      apply List.filter_eq_self.mpr
      intro m hm
      simp [hnotin m hm]
    rw [List.foldl_cons, hfilter]
    have h2 : (((acc ++ [n]) ++ rest).map (fun n => n.nodeId)).Nodup := by
      rw [List.append_assoc]
      simpa using h
    rw [ih (acc ++ [n]) h2, List.append_assoc]
    rfl

/-- One step of the add-or-update fold. -/
theorem addOrUpdatePhase_cons (it : CartItemData) (rest : List CartItemData)
    (cur : List DomNode) (f : Nat) :
    addOrUpdatePhase (it :: rest) (cur, f)
      = addOrUpdatePhase rest
          (match cur.find? (fun n => n.key == it.key) with
            | some _ =>
              (updateFirst it.key (fun n => updateExistingCartItem n it) cur, f)
            | none => (cur ++ [createCartItemElement f it], f + 2)) := rfl

/-- The add-or-update phase never disturbs the lookup of a key that none of
its items carries: updates touch only their own keys and creations append
elements with their own keys. -/
theorem addOrUpdatePhase_find?_untouched (rest : List CartItemData) :
    ∀ (cur : List DomNode) (f : Nat) (k : String),
      k ∉ rest.map (fun it => it.key) →
      (addOrUpdatePhase rest (cur, f)).1.find? (fun n => n.key == k)
        = cur.find? (fun n => n.key == k) := by
  induction rest with
  | nil =>
    intro cur f k _
    rfl
  | cons it rest2 ih =>
    intro cur f k hk
    have hne : k ≠ it.key := by
      intro h
      exact hk (by rw [h]; exact List.mem_map_of_mem _ (List.mem_cons_self _ _))
    have hk2 : k ∉ rest2.map (fun it => it.key) := by
      intro h
      exact hk (by rw [List.map_cons]; exact List.mem_cons_of_mem _ h)
    rw [addOrUpdatePhase_cons]
    cases hfind : cur.find? (fun n => n.key == it.key) with
    | some n =>
      simp only [hfind]
      rw [ih _ f k hk2]
      exact find?_updateFirst_other it.key k hne
        (fun n => updateExistingCartItem n it) (fun m => rfl) cur
    | none =>
      simp only [hfind]
      rw [ih _ (f + 2) k hk2]
      exact find?_append_single_other cur _ k
        (by simp only [createCartItemElement_key]; exact fun h => hne h.symm)

/-- Two rendered lists that agree on the lookup of every snapshot key produce
the same canonical build. -/
theorem canonicalBuild_congr (d1 d2 : List DomNode) :
    ∀ (items : List CartItemData) (f : Nat),
      (∀ it ∈ items, d1.find? (fun n => n.key == it.key)
        = d2.find? (fun n => n.key == it.key)) →
      canonicalBuild d1 items f = canonicalBuild d2 items f := by
  intro items
  induction items with
  | nil =>
    intro f _
    rfl
  | cons it rest ih =>
    intro f h
    have hhead := h it (List.mem_cons_self _ _)
    have htail : ∀ it2 ∈ rest, d1.find? (fun n => n.key == it2.key)
        = d2.find? (fun n => n.key == it2.key) :=
      fun it2 h2 => h it2 (List.mem_cons_of_mem _ h2)
    unfold canonicalBuild
    rw [hhead]
    cases hf : d2.find? (fun n => n.key == it.key) with
    | some n =>
      simp only [hf]
      rw [ih f htail]
    | none =>
      simp only [hf]
      rw [ih (f + 2) htail]

/-- The add-or-update phase agrees with the canonical build: it consumes the
same fresh identities, and looking its output up by each snapshot key, in
snapshot order, reads back exactly the canonical node list. -/
theorem addOrUpdatePhase_canonical :
    ∀ (items : List CartItemData) (cur : List DomNode) (f : Nat),
      (items.map (fun it => it.key)).Nodup →
      (addOrUpdatePhase items (cur, f)).2 = (canonicalBuild cur items f).2
      ∧ items.filterMap
          (fun it => (addOrUpdatePhase items (cur, f)).1.find?
            (fun n => n.key == it.key))
        = (canonicalBuild cur items f).1 := by
  intro items
  induction items with
  | nil =>
    intro cur f _
    exact ⟨rfl, rfl⟩
  | cons it rest ih =>
    intro cur f hk
    rw [List.map_cons, List.nodup_cons] at hk
    obtain ⟨hknot, hkrest⟩ := hk
    rw [addOrUpdatePhase_cons]
    cases hfind : cur.find? (fun n => n.key == it.key) with
    | some n =>
      simp only [hfind]
      have hne2 : ∀ it2 ∈ rest, it2.key ≠ it.key := by
        intro it2 h2 h
        exact hknot (h ▸ List.mem_map_of_mem _ h2)
      have hcongr :
          canonicalBuild
            (updateFirst it.key (fun m => updateExistingCartItem m it) cur)
            rest f = canonicalBuild cur rest f :=
        canonicalBuild_congr _ _ rest f
          (fun it2 h2 =>
            find?_updateFirst_other it.key it2.key (hne2 it2 h2)
              (fun m => updateExistingCartItem m it) (fun m => rfl) cur)
      have ihr := ih
        (updateFirst it.key (fun m => updateExistingCartItem m it) cur) f hkrest
      constructor
      · rw [ihr.1, hcongr]
        simp only [canonicalBuild, hfind]
      · rw [List.filterMap_cons]
        have hfind2 :
            (addOrUpdatePhase rest
              (updateFirst it.key (fun m => updateExistingCartItem m it) cur,
                f)).1.find? (fun m => m.key == it.key)
              = some (updateExistingCartItem n it) := by
          rw [addOrUpdatePhase_find?_untouched rest _ f it.key hknot]
          exact find?_updateFirst_self it.key
            (fun m => updateExistingCartItem m it) (fun m => rfl) cur n hfind
        rw [hfind2]
        rw [ihr.2, hcongr]
        simp only [canonicalBuild, hfind]
    | none =>
      simp only [hfind]
      have hne2 : ∀ it2 ∈ rest, it2.key ≠ it.key := by
        intro it2 h2 h
        exact hknot (h ▸ List.mem_map_of_mem _ h2)
      have hcongr :
          canonicalBuild (cur ++ [createCartItemElement f it]) rest (f + 2)
            = canonicalBuild cur rest (f + 2) :=
        canonicalBuild_congr _ _ rest (f + 2)
          (fun it2 h2 =>
            find?_append_single_other cur _ it2.key
              (by simp only [createCartItemElement_key]
                  exact fun h => (hne2 it2 h2) h.symm))
      have ihr := ih (cur ++ [createCartItemElement f it]) (f + 2) hkrest
      constructor
      · rw [ihr.1, hcongr]
        simp only [canonicalBuild, hfind]
      · rw [List.filterMap_cons]
        have hfind2 :
            (addOrUpdatePhase rest
              (cur ++ [createCartItemElement f it], f + 2)).1.find?
                (fun m => m.key == it.key)
              = some (createCartItemElement f it) := by
          rw [addOrUpdatePhase_find?_untouched rest _ (f + 2) it.key hknot]
          rw [List.find?_append, hfind]
          have h1 : ([createCartItemElement f it].find?
              (fun m => m.key == it.key)) = some (createCartItemElement f it) :=
            List.find?_cons_of_pos _ (by simp)
          rw [h1]
          rfl
        rw [hfind2]
        rw [ihr.2, hcongr]
        simp only [canonicalBuild, hfind]

/-- Structural invariants of the canonical build: its output lists one node
per snapshot item in order, the fresh counter only grows, every output
identity is below the returned counter, every output node either inherits
identity, key, image identity and image source from a rendered node or is
freshly created, and the output identities are pairwise distinct. -/
theorem canonicalBuild_invariants (dom : List DomNode)
    (hid : (dom.map (fun n => n.nodeId)).Nodup) :
    ∀ (items : List CartItemData) (f : Nat),
      (items.map (fun it => it.key)).Nodup →
      (∀ n ∈ dom, n.nodeId < f) →
      ((canonicalBuild dom items f).1.map (fun n => n.key)
          = items.map (fun it => it.key))
      ∧ f ≤ (canonicalBuild dom items f).2
      ∧ (∀ m ∈ (canonicalBuild dom items f).1,
          m.nodeId < (canonicalBuild dom items f).2)
      ∧ (∀ m ∈ (canonicalBuild dom items f).1,
          (∃ n ∈ dom, m.nodeId = n.nodeId ∧ m.key = n.key
            ∧ m.imageId = n.imageId ∧ m.imageSrc = n.imageSrc)
          ∨ f ≤ m.nodeId)
      ∧ ((canonicalBuild dom items f).1.map (fun n => n.nodeId)).Nodup := by
  intro items
  induction items with
  | nil =>
    intro f _ _
    exact ⟨rfl, le_rfl, by simp [canonicalBuild], by simp [canonicalBuild],
      by simp [canonicalBuild]⟩
  | cons it rest ih =>
    intro f hk hlt
    rw [List.map_cons, List.nodup_cons] at hk
    obtain ⟨hknot, hkrest⟩ := hk
    cases hfind : dom.find? (fun n => n.key == it.key) with
    | some n =>
      have hnmem : n ∈ dom := List.mem_of_find?_eq_some hfind
      have hb := List.find?_some hfind
      have hnkey : n.key = it.key := eq_of_beq hb
      obtain ⟨ihA, ihB, ihC, ihD, ihE⟩ := ih f hkrest hlt
      refine ⟨?_, ?_, ?_, ?_, ?_⟩
      · simp only [canonicalBuild, hfind, List.map_cons,
          updateExistingCartItem_key, hnkey, ihA]
      · simp only [canonicalBuild, hfind]
        exact ihB
      · simp only [canonicalBuild, hfind]
        intro m hm
        rcases List.mem_cons.mp hm with h | h
        · subst h
          simp only [updateExistingCartItem_nodeId]
          exact lt_of_lt_of_le (hlt n hnmem) ihB
        · exact ihC m h
      · simp only [canonicalBuild, hfind]
        intro m hm
        rcases List.mem_cons.mp hm with h | h
        · subst h
          exact Or.inl ⟨n, hnmem, rfl, rfl, rfl, rfl⟩
        · exact ihD m h
      · simp only [canonicalBuild, hfind, List.map_cons, List.nodup_cons,
          updateExistingCartItem_nodeId]
        refine ⟨?_, ihE⟩
        intro hmem
        obtain ⟨m, hm, hmid⟩ := List.mem_map.mp hmem
        rcases ihD m hm with ⟨n2, hn2, hid2, hkey2, _, _⟩ | hge
        · have : n2 = n := List.inj_on_of_nodup_map hid hn2 hnmem
            (by rw [← hid2, hmid])
          subst this
          have : m.key ∈ rest.map (fun it => it.key) := by
            rw [← ihA]
            exact List.mem_map_of_mem _ hm
          rw [hkey2, hnkey] at this
          exact hknot this
        · have := hlt n hnmem
          omega
    | none =>
      have hlt2 : ∀ n ∈ dom, n.nodeId < f + 2 := by
        intro n h
        have := hlt n h
        omega
      obtain ⟨ihA, ihB, ihC, ihD, ihE⟩ := ih (f + 2) hkrest hlt2
      refine ⟨?_, ?_, ?_, ?_, ?_⟩
      · simp only [canonicalBuild, hfind, List.map_cons,
          createCartItemElement_key, ihA]
      · simp only [canonicalBuild, hfind]
        omega
      · simp only [canonicalBuild, hfind]
        intro m hm
        rcases List.mem_cons.mp hm with h | h
        · subst h
          simp only [createCartItemElement_nodeId]
          omega
        · exact ihC m h
      · simp only [canonicalBuild, hfind]
        intro m hm
        rcases List.mem_cons.mp hm with h | h
        · subst h
          exact Or.inr (by simp)
        · rcases ihD m h with hdom | hge
          · exact Or.inl hdom
          · exact Or.inr (by omega)
      · simp only [canonicalBuild, hfind, List.map_cons, List.nodup_cons,
          createCartItemElement_nodeId]
        refine ⟨?_, ihE⟩
        intro hmem
        obtain ⟨m, hm, hmid⟩ := List.mem_map.mp hmem
        rcases ihD m hm with ⟨n2, hn2, hid2, _, _, _⟩ | hge
        · have := hlt n2 hn2
          omega
        · omega

/-- With pairwise distinct rendered keys, looking up the key of a rendered
node finds that node. -/
theorem find?_of_nodup_keys (dom : List DomNode)
    (hdk : (dom.map (fun n => n.key)).Nodup) (n : DomNode) (hn : n ∈ dom) :
    dom.find? (fun m => m.key == n.key) = some n := by
  induction dom with
  | nil => cases hn
  | cons m rest ih =>
    rw [List.map_cons, List.nodup_cons] at hdk
    obtain ⟨hmnot, hrest⟩ := hdk
    rcases List.mem_cons.mp hn with h | h
    · subst h
      exact List.find?_cons_of_pos _ (by simp)
    · have hne : m.key ≠ n.key := by
        intro he
        exact hmnot (he ▸ List.mem_map_of_mem _ h)
      rw [List.find?_cons_of_neg _ (by simp [hne])]
      exact ih hrest h

/-- The canonical build keeps, for every snapshot item whose key is already
rendered as the first match `n`, the updated node `updateExistingCartItem n
it` in its output. -/
theorem canonicalBuild_mem_update (dom : List DomNode) :
    ∀ (items : List CartItemData) (f : Nat) (it : CartItemData), it ∈ items →
      ∀ n, dom.find? (fun m => m.key == it.key) = some n →
      updateExistingCartItem n it ∈ (canonicalBuild dom items f).1 := by
  intro items
  induction items with
  | nil =>
    intro f it h
    cases h
  | cons it2 rest ih =>
    intro f it hit n hfind
    rcases List.mem_cons.mp hit with h | h
    · subst h
      simp only [canonicalBuild, hfind]
      exact List.mem_cons_self _ _
    · cases hfind2 : dom.find? (fun m => m.key == it2.key) with
      | some n2 =>
        simp only [canonicalBuild, hfind2]
        exact List.mem_cons_of_mem _ (ih f it h n hfind)
      | none =>
        simp only [canonicalBuild, hfind2]
        exact List.mem_cons_of_mem _ (ih (f + 2) it h n hfind)

/-- The canonical build is a fixed point: rebuilding its own output against
the same snapshot, starting from its own fresh counter, changes nothing. -/
theorem canonicalBuild_fixed (dom : List DomNode) :
    ∀ (items : List CartItemData) (f : Nat),
      (items.map (fun it => it.key)).Nodup →
      canonicalBuild (canonicalBuild dom items f).1 items
          (canonicalBuild dom items f).2
        = canonicalBuild dom items f := by
  intro items
  induction items with
  | nil =>
    intro f _
    rfl
  | cons it rest ih =>
    intro f hk
    rw [List.map_cons, List.nodup_cons] at hk
    obtain ⟨hknot, hkrest⟩ := hk
    have hne2 : ∀ it2 ∈ rest, it2.key ≠ it.key := by
      intro it2 h2 h
      exact hknot (h ▸ List.mem_map_of_mem _ h2)
    cases hfind : dom.find? (fun n => n.key == it.key) with
    | some n =>
      have hb := List.find?_some hfind
      have hnkey : n.key = it.key := eq_of_beq hb
      simp only [canonicalBuild, hfind]
      have hhead : ((updateExistingCartItem n it)
            :: (canonicalBuild dom rest f).1).find? (fun m => m.key == it.key)
          = some (updateExistingCartItem n it) :=
        List.find?_cons_of_pos _ (by simp [hnkey])
      simp only [hhead]
      have hcong : canonicalBuild
          ((updateExistingCartItem n it) :: (canonicalBuild dom rest f).1) rest
          (canonicalBuild dom rest f).2
          = canonicalBuild (canonicalBuild dom rest f).1 rest
            (canonicalBuild dom rest f).2 :=
        canonicalBuild_congr _ _ rest _
          (fun it2 h2 =>
            List.find?_cons_of_neg _
              (by simp only [updateExistingCartItem_key, hnkey, beq_iff_eq]
                  exact fun h => (hne2 it2 h2) h.symm))
      rw [updateExistingCartItem_idem, hcong, ih f hkrest]
    | none =>
      simp only [canonicalBuild, hfind]
      have hhead : ((createCartItemElement f it)
            :: (canonicalBuild dom rest (f + 2)).1).find?
              (fun m => m.key == it.key)
          = some (createCartItemElement f it) :=
        List.find?_cons_of_pos _ (by simp)
      simp only [hhead]
      have hcong : canonicalBuild
          ((createCartItemElement f it) :: (canonicalBuild dom rest (f + 2)).1)
          rest (canonicalBuild dom rest (f + 2)).2
          = canonicalBuild (canonicalBuild dom rest (f + 2)).1 rest
            (canonicalBuild dom rest (f + 2)).2 :=
        canonicalBuild_congr _ _ rest _
          (fun it2 h2 =>
            List.find?_cons_of_neg _
              (by simp only [createCartItemElement_key, beq_iff_eq]
                  exact fun h => (hne2 it2 h2) h.symm))
      rw [updateExistingCartItem_create, hcong, ih (f + 2) hkrest]

/-- The reconciler coincides with the canonical build whenever the snapshot
keys are pairwise distinct and the rendered element identities are pairwise
distinct and below the fresh counter. -/
theorem updateCartItemsIntelligently_eq_canonical (dom : List DomNode)
    (items : List CartItemData) (fresh : Nat)
    (hk : (items.map (fun it => it.key)).Nodup)
    (hid : (dom.map (fun n => n.nodeId)).Nodup)
    (hlt : ∀ n ∈ dom, n.nodeId < fresh) :
    updateCartItemsIntelligently dom items fresh
      = canonicalBuild dom items fresh := by
  have hfiltered : ∀ it ∈ items,
      (dom.filter (fun n =>
        (items.map (fun it => it.key)).contains n.key)).find?
          (fun n => n.key == it.key)
        = dom.find? (fun n => n.key == it.key) := by
    intro it hit
    exact find?_filter_contains dom _ it.key (List.mem_map_of_mem _ hit)
  have hcong := canonicalBuild_congr
    (dom.filter (fun n => (items.map (fun it => it.key)).contains n.key)) dom
    items fresh hfiltered
  have hG := addOrUpdatePhase_canonical items
    (dom.filter (fun n => (items.map (fun it => it.key)).contains n.key))
    fresh hk
  obtain ⟨_, _, _, _, hids⟩ :=
    canonicalBuild_invariants dom hid items fresh hk hlt
  have hordered : items.foldl
      (fun acc it =>
        match (addOrUpdatePhase items
            (dom.filter (fun n =>
              (items.map (fun it => it.key)).contains n.key), fresh)).1.find?
              (fun n => n.key == it.key) with
        | some n => acc ++ [n]
        | none => acc) []
      = (canonicalBuild dom items fresh).1 := by
    rw [foldl_collect_eq_filterMap, List.nil_append, hG.2, hcong]
  have hfst : reorderCartItems
      (addOrUpdatePhase items
        (dom.filter (fun n =>
          (items.map (fun it => it.key)).contains n.key), fresh)).1 items
      = (canonicalBuild dom items fresh).1 := by
    show ((items.foldl
        (fun acc it =>
          match (addOrUpdatePhase items
              (dom.filter (fun n =>
                (items.map (fun it => it.key)).contains n.key), fresh)).1.find?
                (fun n => n.key == it.key) with
          | some n => acc ++ [n]
          | none => acc) []).foldl
        (fun acc n => acc.filter (fun m => m.nodeId ≠ n.nodeId) ++ [n]) [])
      = (canonicalBuild dom items fresh).1
    rw [hordered]
    rw [reinsert_eq_append (canonicalBuild dom items fresh).1 []
      (by simpa using hids)]
    simp
  have hsnd : (addOrUpdatePhase items
      (dom.filter (fun n =>
        (items.map (fun it => it.key)).contains n.key), fresh)).2
      = (canonicalBuild dom items fresh).2 := by
    rw [hG.1, hcong]
  show (reorderCartItems
      (addOrUpdatePhase items
        (dom.filter (fun n =>
          (items.map (fun it => it.key)).contains n.key), fresh)).1 items,
    (addOrUpdatePhase items
      (dom.filter (fun n =>
        (items.map (fun it => it.key)).contains n.key), fresh)).2)
    = canonicalBuild dom items fresh
  rw [hfst, hsnd]

/-- C5: applying the reconciler twice with the same authoritative snapshot is
idempotent — the second application returns exactly the first result,
touching no node and consuming no fresh identity — the rendered key order
after each application equals the snapshot item order, and every rendered
item whose key stays in the snapshot keeps its DOM element identity, image
element identity and image source (only quantity, line price and title are
refreshed).  Hypotheses: snapshot keys are distinct, and rendered keys and
element identities are distinct with identities below the fresh counter, the
invariants the renderer maintains. -/
theorem reconcile_idempotent (dom : List DomNode) (items : List CartItemData)
    (fresh : Nat)
    (hk : (items.map (fun it => it.key)).Nodup)
    (hdk : (dom.map (fun n => n.key)).Nodup)
    (hid : (dom.map (fun n => n.nodeId)).Nodup)
    (hlt : ∀ n ∈ dom, n.nodeId < fresh) :
    updateCartItemsIntelligently
        (updateCartItemsIntelligently dom items fresh).1 items
        (updateCartItemsIntelligently dom items fresh).2
      = updateCartItemsIntelligently dom items fresh
    ∧ (updateCartItemsIntelligently dom items fresh).1.map (fun n => n.key)
      = items.map (fun it => it.key)
    ∧ (∀ n ∈ dom, n.key ∈ items.map (fun it => it.key) →
        ∃ m ∈ (updateCartItemsIntelligently dom items fresh).1,
          m.nodeId = n.nodeId ∧ m.imageId = n.imageId
            ∧ m.imageSrc = n.imageSrc) := by
  have hA := updateCartItemsIntelligently_eq_canonical dom items fresh hk hid hlt
  obtain ⟨invA, invB, invC, invD, invE⟩ :=
    canonicalBuild_invariants dom hid items fresh hk hlt
  refine ⟨?_, ?_, ?_⟩
  · rw [hA]
    rw [updateCartItemsIntelligently_eq_canonical
      (canonicalBuild dom items fresh).1 items
      (canonicalBuild dom items fresh).2 hk invE invC]
    exact canonicalBuild_fixed dom items fresh hk
  · rw [hA]
    exact invA
  · intro n hn hkey
    rw [hA]
    obtain ⟨it, hit, hitkey⟩ := List.mem_map.mp hkey
    have hfind : dom.find? (fun m => m.key == it.key) = some n := by
      rw [hitkey]
      exact find?_of_nodup_keys dom hdk n hn
    exact ⟨updateExistingCartItem n it,
      canonicalBuild_mem_update dom items fresh it hit n hfind, rfl, rfl, rfl⟩

/-- C5 witness: on a concrete rendered cart and snapshot — a new item `b`
and an already rendered item `a` — the second reconcile application returns
the first result unchanged, and the surviving `a` node keeps identity 0,
image identity 1 and its already loaded image source. -/
theorem reconcile_idempotent_witness :
    updateCartItemsIntelligently
        (updateCartItemsIntelligently sampleDom sampleItems 10).1 sampleItems
        (updateCartItemsIntelligently sampleDom sampleItems 10).2
      = updateCartItemsIntelligently sampleDom sampleItems 10
    ∧ (updateCartItemsIntelligently sampleDom sampleItems 10).1.map
        (fun n => n.key)
      = sampleItems.map (fun it => it.key) :=
  ⟨(reconcile_idempotent sampleDom sampleItems 10 (by decide) (by decide)
      (by decide) (by decide)).1,
    (reconcile_idempotent sampleDom sampleItems 10 (by decide) (by decide)
      (by decide) (by decide)).2.1⟩
